import Mathlib

/-!
Shallow embedding of the `coin-futures-websocket` gateway and proofs about it.

Strings from the Go source are modelled as `List Char`; Go `float64` monetary
values are modelled as `ℚ` (only structural properties — which fields are
rewritten, sign comparisons — are at stake, never rounding); Go maps are
modelled as `Finmap` (pointer-keyed maps use a numeric client id standing in
for the pointer identity); Go channels used as bounded queues are modelled as
lists with an explicit capacity.
-/

namespace CFWS

/-- Go strings, modelled as lists of characters. -/
abbrev Str := List Char

/-! ## Channel parser
Embeds `ParseChannel` of `internal/websocket/channel` (handler.go part):
`strings.HasPrefix`/`TrimPrefix` of `"user:"` become a head pattern match,
`strings.Split(·, ":")` becomes `splitChar ':'`. -/

/-- Go `strings.Split` with a one-character separator: `splitChar sep s`
splits `s` at every occurrence of `sep`; the empty string splits to `[[]]`. -/
def splitChar (sep : Char) : Str → List Str
  | [] => [[]]
  | c :: cs =>
    match splitChar sep cs with
    | [] => [[c]]
    | h :: t => if c = sep then [] :: h :: t else (c :: h) :: t

/-- Joins parts back with the separator; the left inverse of `splitChar`. -/
def unsplit (sep : Char) : List Str → Str
  | [] => []
  | [x] => x
  | x :: xs => x ++ sep :: unsplit sep xs

theorem splitChar_ne_nil (sep : Char) (s : Str) : splitChar sep s ≠ [] := by
  cases s with
  | nil => simp [splitChar]
  | cons c cs =>
    simp only [splitChar]
    rcases h : splitChar sep cs with _ | ⟨x, xs⟩ <;> simp [h]
    split <;> simp

theorem splitChar_of_not_mem {sep : Char} {s : Str} (h : sep ∉ s) :
    splitChar sep s = [s] := by
  induction s with
  | nil => rfl
  | cons c cs ih =>
    simp only [List.mem_cons, not_or] at h
    simp only [splitChar, ih h.2]
    rw [if_neg (by exact fun hc => h.1 hc.symm)]

theorem splitChar_append {sep : Char} {a b : Str} (h : sep ∉ a) :
    splitChar sep (a ++ sep :: b) = a :: splitChar sep b := by
  induction a with
  | nil =>
    simp only [List.nil_append, splitChar]
    rcases hb : splitChar sep b with _ | ⟨x, xs⟩
    · exact absurd hb (splitChar_ne_nil sep b)
    · simp
  | cons c cs ih =>
    simp only [List.mem_cons, not_or] at h
    rw [List.cons_append]
    simp only [splitChar, ih h.2]
    rw [if_neg (by exact fun hc => h.1 hc.symm)]

theorem unsplit_splitChar (sep : Char) (s : Str) :
    unsplit sep (splitChar sep s) = s := by
  induction s with
  | nil => rfl
  | cons c cs ih =>
    rcases hr : splitChar sep cs with _ | ⟨h, t⟩
    · exact absurd hr (splitChar_ne_nil sep cs)
    · rw [hr] at ih
      simp only [splitChar, hr]
      split
      · next hc =>
        subst hc
        simp [unsplit, ih]
      · next hc =>
        cases t with
        | nil => simpa [unsplit] using congrArg (c :: ·) ih
        | cons y ys => simpa [unsplit] using congrArg (c :: ·) ih

theorem not_mem_of_mem_splitChar {sep : Char} {s p : Str}
    (hp : p ∈ splitChar sep s) : sep ∉ p := by
  induction s generalizing p with
  | nil =>
    simp only [splitChar, List.mem_singleton] at hp
    subst hp; simp
  | cons c cs ih =>
    rcases hr : splitChar sep cs with _ | ⟨h, t⟩
    · exact absurd hr (splitChar_ne_nil sep cs)
    · simp only [splitChar, hr] at hp
      split at hp
      · next hc =>
        rcases List.mem_cons.mp hp with hp1 | hp2
        · subst hp1; simp
        · exact ih (hr ▸ hp2)
      · next hc =>
        rcases List.mem_cons.mp hp with hp1 | hp2
        · subst hp1
          intro hmem
          rcases List.mem_cons.mp hmem with h1 | h2
          · exact hc h1.symm
          · exact ih (hr ▸ List.mem_cons_self h t) h2
        · exact ih (hr ▸ List.mem_cons.mpr (Or.inr hp2))

theorem splitChar_eq_pair_iff {sep : Char} {s a b : Str} :
    splitChar sep s = [a, b] ↔ sep ∉ a ∧ sep ∉ b ∧ s = a ++ sep :: b := by
  constructor
  · intro h
    have ha : sep ∉ a := not_mem_of_mem_splitChar (s := s) (by rw [h]; simp)
    have hb : sep ∉ b := not_mem_of_mem_splitChar (s := s) (by rw [h]; simp)
    refine ⟨ha, hb, ?_⟩
    have := unsplit_splitChar sep s
    rw [h] at this
    simpa [unsplit] using this.symm
  · rintro ⟨ha, hb, rfl⟩
    rw [splitChar_append ha, splitChar_of_not_mem hb]

/-- Errors of the channel package (`errors.go`). -/
inductive ChanErr
  | invalidChannelFormat
  | unknownChannelType
  | invalidCFXUserID
deriving DecidableEq, Repr

/-- Parsed channel information (`ChannelInfo`); only the fields the code fills
and reads (`AjaibID`, `ChannelSub`) are modelled. -/
structure ChannelInfo where
  ajaibID : Str
  channelSub : Str
deriving DecidableEq, Repr

def channelMargin : Str := "margin".data

def channelPosition : Str := "position".data

/-- `isValidAjaibID`: the regex `^[0-9]{1,10}$`. -/
def validAjaibID (s : Str) : Bool :=
  decide (1 ≤ s.length) && decide (s.length ≤ 10) && s.all (fun c => c.isDigit)

/-- `ParseChannel` from the channel package: requires the `user:` head
(`strings.HasPrefix` + `TrimPrefix`), splits the remainder on `:` into exactly
two parts, rejects empty parts, validates the public id against the digit
regex, and requires the suffix to be in `ValidUserChannels`. -/
def parseChannel : Str → Except ChanErr ChannelInfo
  | 'u' :: 's' :: 'e' :: 'r' :: ':' :: rest =>
    match splitChar ':' rest with
    | [a, b] =>
      if a = [] then .error .invalidChannelFormat
      else if b = [] then .error .invalidChannelFormat
      else if validAjaibID a = false then .error .invalidCFXUserID
      else if b = channelMargin ∨ b = channelPosition then .ok ⟨a, b⟩
      else .error .unknownChannelType
    | _ => .error .invalidChannelFormat
  | _ => .error .unknownChannelType

/-- The full channel string `"user:" + pid + ":" + sfx`. -/
def mkUserChannel (pid sfx : Str) : Str :=
  'u' :: 's' :: 'e' :: 'r' :: ':' :: (pid ++ ':' :: sfx)

theorem colon_not_mem_of_valid {pid : Str} (h : validAjaibID pid = true) :
    ':' ∉ pid := by
  intro hmem
  have hall : pid.all (fun c => c.isDigit) = true := by
    simp only [validAjaibID, Bool.and_eq_true] at h
    exact h.2
  have hd : (':' : Char).isDigit = true := List.all_eq_true.mp hall _ hmem
  exact absurd hd (by decide)

/-- C7: the channel parser accepts exactly the strings
`user:<public_id>:<margin|position>` with `public_id` matching `[0-9]{1,10}`,
and on success returns exactly those two components; every other input string
is rejected (any successful parse comes from a string of that exact shape). -/
theorem parseChannel_correct :
    (∀ pid sfx : Str, validAjaibID pid = true →
      (sfx = channelMargin ∨ sfx = channelPosition) →
      parseChannel (mkUserChannel pid sfx) = .ok ⟨pid, sfx⟩)
    ∧ (∀ (s : Str) (info : ChannelInfo), parseChannel s = .ok info →
      s = mkUserChannel info.ajaibID info.channelSub ∧
      validAjaibID info.ajaibID = true ∧
      (info.channelSub = channelMargin ∨ info.channelSub = channelPosition)) := by
  constructor
  · intro pid sfx hvalid hsfx
    have hpid : ':' ∉ pid := colon_not_mem_of_valid hvalid
    have hsfxc : ':' ∉ sfx := by
      rcases hsfx with h | h <;> subst h <;> decide
    have hsplit : splitChar ':' (pid ++ ':' :: sfx) = [pid, sfx] :=
      splitChar_eq_pair_iff.mpr ⟨hpid, hsfxc, rfl⟩
    have hpidne : pid ≠ [] := by
      intro h
      subst h
      simp [validAjaibID] at hvalid
    have hsfxne : sfx ≠ [] := by
      rcases hsfx with h | h <;> subst h <;> decide
    simp only [mkUserChannel, parseChannel, hsplit]
    rw [if_neg hpidne, if_neg hsfxne, if_neg (by simp [hvalid]), if_pos hsfx]
  · intro s info h
    unfold parseChannel at h
    split at h
    · next rest =>
      split at h
      · next a b hsplit =>
        split_ifs at h with h1 h2 h3 h4
        · have hok : info = ⟨a, b⟩ := by
            cases h; rfl
          subst hok
          obtain ⟨-, -, hrest⟩ := splitChar_eq_pair_iff.mp hsplit
          refine ⟨by simp [mkUserChannel, hrest], ?_, h4⟩
          cases hv : validAjaibID a
          · exact absurd hv h3
          · rfl
      · simp at h
    · simp at h

/-! ## Hub (internal/websocket/server, hub part)
`*Client` pointers become numeric client ids; the heap of `Client` objects
(each owning `ajaibID`, `cfxUserID`, its `subscriptions` map and its buffered
`send` channel) is modelled as a `Finmap` from client id to `Session`, carried
alongside the Hub's three maps. Closing the `send` channel is modelled by
incrementing `closeCount` (Go panics when a channel is closed twice; the
count records every close attempt). -/

/-- A pre-encoded publication frame sitting in a client's `send` queue:
`protocol.NewPublicationMessage(channel, data).Encode()` is abstracted to the
pair it deterministically encodes. -/
structure Frame where
  channel : Str
  data : Str
deriving DecidableEq, Repr

/-- The mutable state of one `Client` object. -/
structure Session where
  ajaibID : Str
  cfxUserID : Str
  subs : Finset Str
  sendQueue : List Frame
  sendCap : ℕ
  closeCount : ℕ
deriving DecidableEq

/-- The `Hub` struct plus the heap of `Client` objects it references. -/
structure Hub where
  clients : Finset ℕ
  userConnections : Finmap (fun _ : Str => ℤ)
  channels : Finmap (fun _ : Str => Finset ℕ)
  sessions : Finmap (fun _ : ℕ => Session)
  maxConnectionsPerUser : ℤ
deriving DecidableEq

/-- `Hub.registerClient`: enforces the per-user limit (only when the id is
non-empty and a positive limit is configured, in which case the count is
incremented) and adds the client to the live set. -/
def Hub.registerClient (h : Hub) (c : ℕ) : Hub :=
  match h.sessions.lookup c with
  | none => h
  | some s =>
    if s.ajaibID ≠ [] ∧ 0 < h.maxConnectionsPerUser then
      let cur := (h.userConnections.lookup s.ajaibID).getD 0
      if h.maxConnectionsPerUser ≤ cur then h
      else { h with
              userConnections := h.userConnections.insert s.ajaibID (cur + 1),
              clients := insert c h.clients }
    else { h with clients := insert c h.clients }

/-- A canonical listing of a finite set, standing in for Go's (arbitrary-order,
order-irrelevant here) map iteration. -/
def listing {α : Type} [LinearOrder α] (s : Finset α) : List α :=
  s.sort (fun a b => a ≤ b)

theorem mem_listing {α : Type} [LinearOrder α] {s : Finset α} {a : α} :
    a ∈ listing s ↔ a ∈ s := Finset.mem_sort _

theorem listing_nodup {α : Type} [LinearOrder α] (s : Finset α) :
    (listing s).Nodup := Finset.sort_nodup _ s

/-- One step of the channel cleanup loop in `Hub.unregisterClient`: delete the
client from `channels[ch]` and delete the entry when the set became empty
(an absent entry reads as the nil map, whose length is 0, so it is deleted —
a no-op). -/
def chanErase (m : Finmap (fun _ : Str => Finset ℕ)) (c : ℕ) (ch : Str) :
    Finmap (fun _ : Str => Finset ℕ) :=
  match m.lookup ch with
  | none => m.erase ch
  | some st =>
    let st9 := st.erase c
    if st9 = ∅ then m.erase ch else m.insert ch st9

/-- The `for channel := range client.subscriptions` loop of
`Hub.unregisterClient`, folded over a listing of the subscription set. -/
def chanEraseAll (m : Finmap (fun _ : Str => Finset ℕ)) (c : ℕ)
    (l : List Str) : Finmap (fun _ : Str => Finset ℕ) :=
  l.foldl (fun m9 ch => chanErase m9 c ch) m

/-- `Hub.unregisterClient`: removes the client from the live set; when its id
is non-empty and has an entry, decrements the count (only when positive) and
deletes the key when the stored count reads 0; removes the client from every
channel set it subscribes to, deleting emptied entries; and closes the
client's send queue (unconditionally — every call is a close attempt). -/
def Hub.unregisterClient (h : Hub) (c : ℕ) : Hub :=
  match h.sessions.lookup c with
  | none => h
  | some s =>
    let uc :=
      if s.ajaibID ≠ [] then
        match h.userConnections.lookup s.ajaibID with
        | none => h.userConnections
        | some cur =>
          let newCur := if 0 < cur then cur - 1 else cur
          let m1 := if 0 < cur then h.userConnections.insert s.ajaibID newCur
                    else h.userConnections
          if newCur = 0 then m1.erase s.ajaibID else m1
      else h.userConnections
    { h with
        clients := h.clients.erase c,
        userConnections := uc,
        channels := chanEraseAll h.channels c (listing s.subs),
        sessions := h.sessions.insert c { s with closeCount := s.closeCount + 1 } }

/-- `Hub.SubscribeClient`: creates the channel's subscriber set when absent,
adds the client to it and the channel to the client's subscription set. -/
def Hub.subscribeClient (h : Hub) (c : ℕ) (ch : Str) : Hub :=
  match h.sessions.lookup c with
  | none => h
  | some s =>
    let cur := (h.channels.lookup ch).getD ∅
    { h with
        channels := h.channels.insert ch (insert c cur),
        sessions := h.sessions.insert c { s with subs := insert ch s.subs } }

/-- `Hub.UnsubscribeClient`: deletes the client from the channel's subscriber
set and the channel from the client's subscription set. The channel's entry
is NOT deleted when the set becomes empty (delete on a nil map is a no-op, so
an absent entry stays absent). -/
def Hub.unsubscribeClient (h : Hub) (c : ℕ) (ch : Str) : Hub :=
  match h.sessions.lookup c with
  | none => h
  | some s =>
    let chans :=
      match h.channels.lookup ch with
      | none => h.channels
      | some st => h.channels.insert ch (st.erase c)
    { h with
        channels := chans,
        sessions := h.sessions.insert c { s with subs := s.subs.erase ch } }

/-- The non-blocking `select`-send of the broadcast loop (`client.send <- data`
with a `default` arm): append when the bounded queue has room, drop otherwise. -/
def trySend (s : Session) (f : Frame) : Session :=
  if s.sendQueue.length < s.sendCap then { s with sendQueue := s.sendQueue ++ [f] }
  else s

/-- The delivery loop of `Hub.broadcastToChannel` over the snapshot list of
subscribers. -/
def sendAll (m : Finmap (fun _ : ℕ => Session)) (l : List ℕ) (f : Frame) :
    Finmap (fun _ : ℕ => Session) :=
  l.foldl
    (fun m9 c =>
      match m9.lookup c with
      | none => m9
      | some s => m9.insert c (trySend s f)) m

/-- `Hub.broadcastToChannel`: a miss returns immediately; otherwise the frame
is encoded once and offered to every subscriber's queue non-blockingly. -/
def Hub.broadcastToChannel (h : Hub) (ch : Str) (data : Str) : Hub :=
  match h.channels.lookup ch with
  | none => h
  | some st =>
    { h with sessions := sendAll h.sessions (listing st) ⟨ch, data⟩ }

/-! ### Pointwise characterisations of the iteration folds -/

theorem insert_self_of_lookup {α : Type} [DecidableEq α] {β : Type}
    {m : Finmap (fun _ : α => β)} {a : α} {b : β} (h : m.lookup a = some b) :
    m.insert a b = m := by
  apply Finmap.ext_lookup
  intro x
  by_cases hx : x = a
  · subst hx
    rw [Finmap.lookup_insert, h]
  · rw [Finmap.lookup_insert_of_ne _ hx]

theorem erase_of_lookup_none {α : Type} [DecidableEq α] {β : Type}
    {m : Finmap (fun _ : α => β)} {a : α} (h : m.lookup a = none) :
    m.erase a = m := by
  apply Finmap.ext_lookup
  intro x
  by_cases hx : x = a
  · subst hx
    rw [Finmap.lookup_erase, h]
  · rw [Finmap.lookup_erase_ne hx]

/-- The effect of one `chanErase` step on a single key as an `Option` map. -/
def chanEraseFun (c : ℕ) : Option (Finset ℕ) → Option (Finset ℕ)
  | none => none
  | some st => if st.erase c = ∅ then none else some (st.erase c)

theorem chanEraseFun_idem (c : ℕ) (o : Option (Finset ℕ)) :
    chanEraseFun c (chanEraseFun c o) = chanEraseFun c o := by
  rcases o with _ | st
  · rfl
  · by_cases he : st.erase c = ∅
    · simp [chanEraseFun, he]
    · simp [chanEraseFun, he, Finset.erase_idem]

theorem lookup_chanErase (m : Finmap (fun _ : Str => Finset ℕ)) (c : ℕ)
    (x ch : Str) :
    (chanErase m c x).lookup ch =
      if ch = x then chanEraseFun c (m.lookup ch) else m.lookup ch := by
  by_cases hch : ch = x
  · subst hch
    rw [if_pos rfl]
    rcases hx : m.lookup ch with _ | st
    · simp only [chanErase, hx, chanEraseFun]
      rw [Finmap.lookup_erase]
    · simp only [chanErase, hx, chanEraseFun]
      by_cases he : st.erase c = ∅
      · rw [if_pos he, if_pos he, Finmap.lookup_erase]
      · rw [if_neg he, if_neg he, Finmap.lookup_insert]
  · rw [if_neg hch]
    rcases hx : m.lookup x with _ | st
    · simp only [chanErase, hx]
      rw [Finmap.lookup_erase_ne hch]
    · simp only [chanErase, hx]
      by_cases he : st.erase c = ∅
      · rw [if_pos he, Finmap.lookup_erase_ne hch]
      · rw [if_neg he, Finmap.lookup_insert_of_ne _ hch]

theorem lookup_chanEraseAll (m : Finmap (fun _ : Str => Finset ℕ)) (c : ℕ)
    (l : List Str) (ch : Str) :
    (chanEraseAll m c l).lookup ch =
      if ch ∈ l then chanEraseFun c (m.lookup ch) else m.lookup ch := by
  induction l generalizing m with
  | nil => simp [chanEraseAll]
  | cons x xs ih =>
    have hstep : chanEraseAll m c (x :: xs) = chanEraseAll (chanErase m c x) c xs := rfl
    rw [hstep, ih, lookup_chanErase]
    by_cases h1 : ch ∈ xs
    · rw [if_pos h1, if_pos (List.mem_cons.mpr (Or.inr h1))]
      by_cases h2 : ch = x
      · rw [if_pos h2, chanEraseFun_idem]
      · rw [if_neg h2]
    · rw [if_neg h1]
      by_cases h2 : ch = x
      · rw [if_pos h2, if_pos (List.mem_cons.mpr (Or.inl h2))]
      · rw [if_neg h2, if_neg (by simp [h2, h1])]

theorem chanEraseAll_idem (m : Finmap (fun _ : Str => Finset ℕ)) (c : ℕ)
    (l : List Str) :
    chanEraseAll (chanEraseAll m c l) c l = chanEraseAll m c l := by
  apply Finmap.ext_lookup
  intro ch
  rw [lookup_chanEraseAll, lookup_chanEraseAll]
  by_cases h : ch ∈ l
  · simp [h, chanEraseFun_idem]
  · simp [h]

theorem lookup_sendAll (m : Finmap (fun _ : ℕ => Session)) (l : List ℕ)
    (f : Frame) (c : ℕ) (hnd : l.Nodup) :
    (sendAll m l f).lookup c =
      if c ∈ l then (m.lookup c).map (fun s => trySend s f) else m.lookup c := by
  induction l generalizing m with
  | nil => simp [sendAll]
  | cons x xs ih =>
    have hx : x ∉ xs := (List.nodup_cons.mp hnd).1
    have hxs : xs.Nodup := (List.nodup_cons.mp hnd).2
    have hstep : sendAll m (x :: xs) f =
        sendAll (match m.lookup x with
                 | none => m
                 | some s => m.insert x (trySend s f)) xs f := rfl
    rw [hstep, ih _ hxs]
    rcases hlx : m.lookup x with _ | s
    · simp only
      by_cases h2 : c = x
      · subst h2
        rw [if_neg hx, if_pos (List.mem_cons.mpr (Or.inl rfl)), hlx]
        rfl
      · by_cases h1 : c ∈ xs
        · rw [if_pos h1, if_pos (List.mem_cons.mpr (Or.inr h1))]
        · rw [if_neg h1, if_neg (by simp [h2, h1])]
    · simp only
      by_cases h2 : c = x
      · subst h2
        rw [if_neg hx, if_pos (List.mem_cons.mpr (Or.inl rfl)),
          Finmap.lookup_insert, hlx]
        rfl
      · by_cases h1 : c ∈ xs
        · rw [if_pos h1, if_pos (List.mem_cons.mpr (Or.inr h1)),
            Finmap.lookup_insert_of_ne _ h2]
        · rw [if_neg h1, if_neg (by simp [h2, h1]),
            Finmap.lookup_insert_of_ne _ h2]

/-! ### Hub operation facts -/

theorem unregisterClient_fields (h : Hub) (c : ℕ) (s : Session)
    (hs : h.sessions.lookup c = some s) :
    (h.unregisterClient c).clients = h.clients.erase c ∧
    (h.unregisterClient c).channels = chanEraseAll h.channels c (listing s.subs) ∧
    (h.unregisterClient c).sessions =
      h.sessions.insert c { s with closeCount := s.closeCount + 1 } := by
  simp only [Hub.unregisterClient, hs]
  exact ⟨trivial, trivial, trivial⟩

/-- C1 (amended): a second `unregisterClient` on the same session leaves the
live set and the channel-subscriber map as after the first call, but performs
a second close of the session's outbound queue (in Go, closing an
already-closed channel). The per-user count is NOT always left unchanged —
see the counterexample. -/
theorem unregisterClient_second_call (h : Hub) (c : ℕ) (s : Session)
    (hs : h.sessions.lookup c = some s) :
    ((h.unregisterClient c).unregisterClient c).clients =
      (h.unregisterClient c).clients ∧
    ((h.unregisterClient c).unregisterClient c).channels =
      (h.unregisterClient c).channels ∧
    ((h.unregisterClient c).unregisterClient c).sessions.lookup c =
      some { s with closeCount := s.closeCount + 2 } := by
  obtain ⟨hc1, hch1, hse1⟩ := unregisterClient_fields h c s hs
  have hs1 : (h.unregisterClient c).sessions.lookup c =
      some { s with closeCount := s.closeCount + 1 } := by
    rw [hse1, Finmap.lookup_insert]
  obtain ⟨hc2, hch2, hse2⟩ :=
    unregisterClient_fields (h.unregisterClient c) c _ hs1
  dsimp only at hch2 hse2
  refine ⟨?_, ?_, ?_⟩
  · rw [hc2, hc1, Finset.erase_idem]
  · rw [hch2, hch1, chanEraseAll_idem]
  · rw [hse2, Finmap.lookup_insert]

/-- A session of user `111` with internal id `C1`, fresh queue of capacity
256, as constructed by `NewClient`. -/
def sessA : Session := ⟨"111".data, "C1".data, ∅, [], 256, 0⟩

/-- A hub with two live sessions (ids 0 and 1) of the same user `111`,
per-user count 2, limit 5. -/
def hubPair : Hub :=
  { clients := {0, 1},
    userConnections := (∅ : Finmap (fun _ : Str => ℤ)).insert "111".data 2,
    channels := ∅,
    sessions := ((∅ : Finmap (fun _ : ℕ => Session)).insert 0 sessA).insert 1 sessA,
    maxConnectionsPerUser := 5 }

/-- C1 counterexample: with a second session of the same user still live,
unregistering session 0 twice does NOT leave the Hub as after one call (the
per-user count is decremented again, to the point of deletion), and the
outbound queue of session 0 is closed twice, not once. -/
theorem unregisterClient_not_idempotent :
    (hubPair.unregisterClient 0).unregisterClient 0 ≠ hubPair.unregisterClient 0 ∧
    ((hubPair.unregisterClient 0).unregisterClient 0).userConnections.lookup "111".data
      = none ∧
    (hubPair.unregisterClient 0).userConnections.lookup "111".data = some 1 ∧
    (((hubPair.unregisterClient 0).unregisterClient 0).sessions.lookup 0).map
        Session.closeCount = some 2 := by
  decide

/-- C3 (amended): subscribe followed by unsubscribe of the same channel on a
live session restores the Hub state exactly when the channel already had a
subscriber entry; when it had none, everything is restored except that an
empty subscriber-set entry for the channel remains (the entry is not deleted
when its set becomes empty). -/
theorem subscribe_then_unsubscribe (h : Hub) (c : ℕ) (ch : Str) (s : Session)
    (hs : h.sessions.lookup c = some s) (hsub : ch ∉ s.subs)
    (hst : ∀ st, h.channels.lookup ch = some st → c ∉ st) :
    (h.subscribeClient c ch).unsubscribeClient c ch =
      match h.channels.lookup ch with
      | some _ => h
      | none => { h with channels := h.channels.insert ch ∅ } := by
  have hcur : c ∉ (h.channels.lookup ch).getD ∅ := by
    rcases hc : h.channels.lookup ch with _ | st
    · simp
    · exact hst st hc
  simp only [Hub.subscribeClient, hs]
  simp only [Hub.unsubscribeClient, Finmap.lookup_insert]
  rw [Finset.erase_insert hcur, Finmap.insert_insert, Finset.erase_insert hsub,
    Finmap.insert_insert, insert_self_of_lookup hs]
  rcases hc : h.channels.lookup ch with _ | st
  · rfl
  · show { h with channels := h.channels.insert ch st } = h
    rw [insert_self_of_lookup hc]

/-- A hub with one live session (id 0, user `111`), no subscriptions. -/
def hubSolo : Hub :=
  { clients := {0},
    userConnections := (∅ : Finmap (fun _ : Str => ℤ)).insert "111".data 1,
    channels := ∅,
    sessions := (∅ : Finmap (fun _ : ℕ => Session)).insert 0 sessA,
    maxConnectionsPerUser := 5 }

/-- C3 counterexample: subscribing and then unsubscribing `user:111:margin`
on a fresh hub does NOT restore the state: an empty subscriber-set entry for
the channel remains in the channels map. -/
theorem subscribe_then_unsubscribe_leaves_empty_entry :
    (hubSolo.subscribeClient 0 "user:111:margin".data).unsubscribeClient 0
        "user:111:margin".data ≠ hubSolo ∧
    ((hubSolo.subscribeClient 0 "user:111:margin".data).unsubscribeClient 0
        "user:111:margin".data).channels.lookup "user:111:margin".data
      = some ∅ := by
  decide

/-- C9: broadcasting on a channel with a subscriber set touches nothing but
the send queues: every subscriber with free queue capacity gets the encoded
publication frame appended at the tail of its own queue (FIFO per recipient),
a subscriber with a full queue is skipped, and every non-subscriber's session
is untouched. -/
theorem broadcastToChannel_delivery (h : Hub) (ch data : Str) (st : Finset ℕ)
    (hch : h.channels.lookup ch = some st) (c : ℕ) (s : Session)
    (hs : h.sessions.lookup c = some s) :
    (h.broadcastToChannel ch data).clients = h.clients ∧
    (h.broadcastToChannel ch data).channels = h.channels ∧
    (h.broadcastToChannel ch data).userConnections = h.userConnections ∧
    (h.broadcastToChannel ch data).sessions.lookup c =
      some (if c ∈ st then
              (if s.sendQueue.length < s.sendCap then
                { s with sendQueue := s.sendQueue ++ [⟨ch, data⟩] }
              else s)
            else s) := by
  simp only [Hub.broadcastToChannel, hch]
  refine ⟨trivial, trivial, trivial, ?_⟩
  rw [lookup_sendAll _ _ _ _ (listing_nodup st), hs]
  by_cases hm : c ∈ st
  · rw [if_pos (mem_listing.mpr hm), if_pos hm]
    rfl
  · rw [if_neg (fun hc => hm (mem_listing.mp hc)), if_neg hm]

/-- A session of user `111` whose queue (capacity 1) is already full. -/
def sessFull : Session := ⟨"111".data, "C1".data, {"user:111:margin".data}, [⟨"user:111:margin".data, "old".data⟩], 1, 0⟩

/-- A session of user `111` with room in its queue. -/
def sessRoom : Session := ⟨"111".data, "C1".data, {"user:111:margin".data}, [], 2, 0⟩

/-- A hub where sessions 0 (full queue) and 1 (free queue) are both
subscribed to `user:111:margin`. -/
def hubBusy : Hub :=
  { clients := {0, 1},
    userConnections := (∅ : Finmap (fun _ : Str => ℤ)).insert "111".data 2,
    channels := (∅ : Finmap (fun _ : Str => Finset ℕ)).insert "user:111:margin".data {0, 1},
    sessions := ((∅ : Finmap (fun _ : ℕ => Session)).insert 0 sessFull).insert 1 sessRoom,
    maxConnectionsPerUser := 5 }

/-- C9 witness: on `hubBusy`, a broadcast drops the frame for the
full-queued session 0 and appends it to session 1's queue. -/
theorem broadcastToChannel_delivery_witness :
    (hubBusy.broadcastToChannel "user:111:margin".data "d".data).sessions.lookup 0 =
      some sessFull ∧
    (hubBusy.broadcastToChannel "user:111:margin".data "d".data).sessions.lookup 1 =
      some { sessRoom with
              sendQueue := [⟨"user:111:margin".data, "d".data⟩] } := by
  have h0 := broadcastToChannel_delivery hubBusy "user:111:margin".data "d".data
    {0, 1} (by decide) 0 sessFull (by decide)
  have h1 := broadcastToChannel_delivery hubBusy "user:111:margin".data "d".data
    {0, 1} (by decide) 1 sessRoom (by decide)
  refine ⟨?_, ?_⟩
  · rw [h0.2.2.2]
    decide
  · rw [h1.2.2.2]
    decide

/-- C7 witness: `user:123:margin` parses to `(123, margin)`. -/
theorem parseChannel_correct_witness :
    parseChannel (mkUserChannel "123".data channelMargin) =
      .ok ⟨"123".data, channelMargin⟩ :=
  parseChannel_correct.1 "123".data channelMargin (by decide) (Or.inl rfl)

/-- C1 witness: the amended second-call fact at the concrete two-session hub. -/
theorem unregisterClient_second_call_witness :
    ((hubPair.unregisterClient 0).unregisterClient 0).clients =
      (hubPair.unregisterClient 0).clients ∧
    ((hubPair.unregisterClient 0).unregisterClient 0).channels =
      (hubPair.unregisterClient 0).channels ∧
    ((hubPair.unregisterClient 0).unregisterClient 0).sessions.lookup 0 =
      some { sessA with closeCount := sessA.closeCount + 2 } :=
  unregisterClient_second_call hubPair 0 sessA (by decide)

/-- C3 witness: subscribing then unsubscribing `user:111:position` (absent
before) on `hubBusy`. -/
theorem subscribe_then_unsubscribe_witness :
    (hubBusy.subscribeClient 0 "user:111:position".data).unsubscribeClient 0
        "user:111:position".data =
      match hubBusy.channels.lookup "user:111:position".data with
      | some _ => hubBusy
      | none => { hubBusy with
          channels := hubBusy.channels.insert "user:111:position".data ∅ } :=
  subscribe_then_unsubscribe hubBusy 0 "user:111:position".data sessFull
    (by decide) (by decide)
    (fun st h9 => by
      rw [show hubBusy.channels.lookup "user:111:position".data = none from by decide] at h9
      exact Option.noConfusion h9)

/-! ## Per-user connection counting (claim C4) -/

/-- The number of live sessions whose public identifier is `p`. -/
def liveCount (h : Hub) (p : Str) : ℕ :=
  (h.clients.filter
    (fun c => (h.sessions.lookup c).map Session.ajaibID = some p)).card

/-- The hub's per-user count for `p` (an absent key reads 0, as in Go). -/
def countOf (h : Hub) (p : Str) : ℤ :=
  (h.userConnections.lookup p).getD 0

/-- The per-user-count invariant the code actually maintains: accurate counts
when a positive limit is configured; an untouched (empty) count map when the
limit is zero or negative. -/
def HubCountInv (h : Hub) : Prop :=
  ∀ p : Str,
    (0 < h.maxConnectionsPerUser → p ≠ [] → countOf h p = liveCount h p) ∧
    (h.maxConnectionsPerUser ≤ 0 → h.userConnections.lookup p = none)

/-- Every live client id is backed by a session object. -/
def ClientsOwned (h : Hub) : Prop :=
  ∀ c ∈ h.clients, ∃ s, h.sessions.lookup c = some s

/-- Hub states reachable by the operations as the rest of the program invokes
them: a client object is created at most once per id, `registerClient` is
called on constructed-but-not-live clients, `unregisterClient` on live ones
(each pump-exit teardown runs once per client). -/
inductive Reached : Hub → Prop
  | start (maxConn : ℤ) :
      Reached ⟨∅, ∅, ∅, ∅, maxConn⟩
  | create (h : Hub) (c : ℕ) (aj cfx : Str) (cap : ℕ) :
      Reached h → h.sessions.lookup c = none →
      Reached { h with sessions := h.sessions.insert c ⟨aj, cfx, ∅, [], cap, 0⟩ }
  | reg (h : Hub) (c : ℕ) :
      Reached h → c ∉ h.clients → Reached (h.registerClient c)
  | unreg (h : Hub) (c : ℕ) :
      Reached h → c ∈ h.clients → Reached (h.unregisterClient c)
  | sub (h : Hub) (c : ℕ) (ch : Str) :
      Reached h → Reached (h.subscribeClient c ch)
  | unsub (h : Hub) (c : ℕ) (ch : Str) :
      Reached h → Reached (h.unsubscribeClient c ch)
  | bcast (h : Hub) (ch data : Str) :
      Reached h → Reached (h.broadcastToChannel ch data)

theorem liveCount_congr {h9 h : Hub}
    (hc : h9.clients = h.clients)
    (hpred : ∀ x ∈ h.clients,
      (h9.sessions.lookup x).map Session.ajaibID =
      (h.sessions.lookup x).map Session.ajaibID) (p : Str) :
    liveCount h9 p = liveCount h p := by
  unfold liveCount
  rw [hc]
  congr 1
  apply Finset.filter_congr
  intro x hx
  rw [hpred x hx]

theorem trySend_ajaibID (s : Session) (f : Frame) :
    (trySend s f).ajaibID = s.ajaibID := by
  unfold trySend
  split <;> rfl

theorem HubCountInv_of_components {h9 h : Hub}
    (hM : h9.maxConnectionsPerUser = h.maxConnectionsPerUser)
    (huc : h9.userConnections = h.userConnections)
    (hlc : ∀ p, liveCount h9 p = liveCount h p)
    (ih : HubCountInv h) : HubCountInv h9 := by
  intro p
  constructor
  · intro hMpos hp
    rw [hM] at hMpos
    have hgoal := (ih p).1 hMpos hp
    unfold countOf at hgoal ⊢
    rw [huc, hlc]
    exact hgoal
  · intro hM0
    rw [hM] at hM0
    rw [huc]
    exact (ih p).2 hM0

theorem reached_inv {h : Hub} (hr : Reached h) :
    HubCountInv h ∧ ClientsOwned h := by
  induction hr with
  | start maxConn =>
    constructor
    · intro p
      constructor
      · intro _ _
        simp [countOf, liveCount, Finmap.lookup_empty]
      · intro _
        exact Finmap.lookup_empty p
    · intro c hc
      exact absurd hc (Finset.not_mem_empty c)
  | create h c aj cfx cap hprev hnone ih =>
    obtain ⟨ihinv, ihown⟩ := ih
    have hxc : ∀ x ∈ h.clients, x ≠ c := by
      intro x hx he
      subst he
      obtain ⟨s, hs⟩ := ihown x hx
      rw [hnone] at hs
      exact Option.noConfusion hs
    constructor
    · refine HubCountInv_of_components ?_ ?_ ?_ ihinv
      · rfl
      · rfl
      · intro p
        refine liveCount_congr ?_ ?_ p
        · rfl
        · intro x hx
          show ((h.sessions.insert c _).lookup x).map _ = _
          rw [Finmap.lookup_insert_of_ne _ (hxc x hx)]
    · intro x hx
      by_cases he : x = c
      · subst he
        exact ⟨_, Finmap.lookup_insert _⟩
      · obtain ⟨s, hs⟩ := ihown x hx
        refine ⟨s, ?_⟩
        show (h.sessions.insert c _).lookup x = some s
        rw [Finmap.lookup_insert_of_ne _ he]
        exact hs
  | sub h c ch hprev ih =>
    obtain ⟨ihinv, ihown⟩ := ih
    rcases hl : h.sessions.lookup c with _ | s
    · have heq : h.subscribeClient c ch = h := by
        simp [Hub.subscribeClient, hl]
      rw [heq]
      exact ⟨ihinv, ihown⟩
    · have huc : (h.subscribeClient c ch).userConnections = h.userConnections := by
        simp [Hub.subscribeClient, hl]
      have hM : (h.subscribeClient c ch).maxConnectionsPerUser =
          h.maxConnectionsPerUser := by
        simp [Hub.subscribeClient, hl]
      have hc : (h.subscribeClient c ch).clients = h.clients := by
        simp [Hub.subscribeClient, hl]
      have hsess : ∀ x, (h.subscribeClient c ch).sessions.lookup x =
          if x = c then some { s with subs := insert ch s.subs }
          else h.sessions.lookup x := by
        intro x
        simp only [Hub.subscribeClient, hl]
        by_cases he : x = c
        · subst he
          rw [if_pos rfl]
          exact Finmap.lookup_insert _
        · rw [if_neg he]
          exact Finmap.lookup_insert_of_ne _ he
      constructor
      · refine HubCountInv_of_components hM huc ?_ ihinv
        intro p
        refine liveCount_congr hc ?_ p
        intro x hx
        rw [hsess x]
        by_cases he : x = c
        · subst he
          rw [if_pos rfl, hl]
          rfl
        · rw [if_neg he]
      · intro x hx
        rw [hc] at hx
        rw [hsess x]
        by_cases he : x = c
        · subst he
          rw [if_pos rfl]
          exact ⟨_, rfl⟩
        · rw [if_neg he]
          exact ihown x hx
  | unsub h c ch hprev ih =>
    obtain ⟨ihinv, ihown⟩ := ih
    rcases hl : h.sessions.lookup c with _ | s
    · have heq : h.unsubscribeClient c ch = h := by
        simp [Hub.unsubscribeClient, hl]
      rw [heq]
      exact ⟨ihinv, ihown⟩
    · have huc : (h.unsubscribeClient c ch).userConnections = h.userConnections := by
        simp [Hub.unsubscribeClient, hl]
      have hM : (h.unsubscribeClient c ch).maxConnectionsPerUser =
          h.maxConnectionsPerUser := by
        simp [Hub.unsubscribeClient, hl]
      have hc : (h.unsubscribeClient c ch).clients = h.clients := by
        simp [Hub.unsubscribeClient, hl]
      have hsess : ∀ x, (h.unsubscribeClient c ch).sessions.lookup x =
          if x = c then some { s with subs := s.subs.erase ch }
          else h.sessions.lookup x := by
        intro x
        simp only [Hub.unsubscribeClient, hl]
        by_cases he : x = c
        · subst he
          rw [if_pos rfl]
          exact Finmap.lookup_insert _
        · rw [if_neg he]
          exact Finmap.lookup_insert_of_ne _ he
      constructor
      · refine HubCountInv_of_components hM huc ?_ ihinv
        intro p
        refine liveCount_congr hc ?_ p
        intro x hx
        rw [hsess x]
        by_cases he : x = c
        · subst he
          rw [if_pos rfl, hl]
          rfl
        · rw [if_neg he]
      · intro x hx
        rw [hc] at hx
        rw [hsess x]
        by_cases he : x = c
        · subst he
          rw [if_pos rfl]
          exact ⟨_, rfl⟩
        · rw [if_neg he]
          exact ihown x hx
  | bcast h ch data hprev ih =>
    obtain ⟨ihinv, ihown⟩ := ih
    rcases hl : h.channels.lookup ch with _ | st
    · have heq : h.broadcastToChannel ch data = h := by
        simp [Hub.broadcastToChannel, hl]
      rw [heq]
      exact ⟨ihinv, ihown⟩
    · have huc : (h.broadcastToChannel ch data).userConnections =
          h.userConnections := by
        simp [Hub.broadcastToChannel, hl]
      have hM : (h.broadcastToChannel ch data).maxConnectionsPerUser =
          h.maxConnectionsPerUser := by
        simp [Hub.broadcastToChannel, hl]
      have hc : (h.broadcastToChannel ch data).clients = h.clients := by
        simp [Hub.broadcastToChannel, hl]
      have hsess : ∀ x, (h.broadcastToChannel ch data).sessions.lookup x =
          if x ∈ listing st then
            (h.sessions.lookup x).map (fun s => trySend s ⟨ch, data⟩)
          else h.sessions.lookup x := by
        intro x
        simp only [Hub.broadcastToChannel, hl]
        exact lookup_sendAll _ _ _ _ (listing_nodup st)
      constructor
      · refine HubCountInv_of_components hM huc ?_ ihinv
        intro p
        refine liveCount_congr hc ?_ p
        intro x hx
        rw [hsess x]
        by_cases he : x ∈ listing st
        · rw [if_pos he, Option.map_map]
          have : (Session.ajaibID ∘ fun s => trySend s ⟨ch, data⟩) =
              Session.ajaibID := by
            funext s
            exact trySend_ajaibID s _
          rw [this]
        · rw [if_neg he]
      · intro x hx
        rw [hc] at hx
        obtain ⟨s, hs⟩ := ihown x hx
        rw [hsess x]
        by_cases he : x ∈ listing st
        · rw [if_pos he, hs]
          exact ⟨_, rfl⟩
        · rw [if_neg he]
          exact ⟨s, hs⟩
  | reg h c hprev hnotmem ih =>
    obtain ⟨ihinv, ihown⟩ := ih
    rcases hl : h.sessions.lookup c with _ | s
    · have heq : h.registerClient c = h := by
        simp [Hub.registerClient, hl]
      rw [heq]
      exact ⟨ihinv, ihown⟩
    · by_cases hcond : s.ajaibID ≠ [] ∧ 0 < h.maxConnectionsPerUser
      · by_cases hlim : h.maxConnectionsPerUser ≤
            (h.userConnections.lookup s.ajaibID).getD 0
        · have heq : h.registerClient c = h := by
            simp only [Hub.registerClient, hl]
            rw [if_pos hcond, if_pos hlim]
          rw [heq]
          exact ⟨ihinv, ihown⟩
        · have heq : h.registerClient c =
              { h with
                userConnections := h.userConnections.insert s.ajaibID
                  ((h.userConnections.lookup s.ajaibID).getD 0 + 1),
                clients := insert c h.clients } := by
            simp only [Hub.registerClient, hl]
            rw [if_pos hcond, if_neg hlim]
          rw [heq]
          have hpredc : ∀ p : Str,
              ((h.sessions.lookup c).map Session.ajaibID = some p) ↔
                s.ajaibID = p := by
            intro p
            rw [hl]
            simp
          constructor
          · intro p
            constructor
            · intro hMpos hp
              by_cases hpaj : p = s.ajaibID
              · have hcnt : countOf
                    { h with
                      userConnections := h.userConnections.insert s.ajaibID
                        ((h.userConnections.lookup s.ajaibID).getD 0 + 1),
                      clients := insert c h.clients } p =
                    (h.userConnections.lookup s.ajaibID).getD 0 + 1 := by
                  unfold countOf
                  dsimp only
                  rw [hpaj, Finmap.lookup_insert]
                  rfl
                have hlive : liveCount
                    { h with
                      userConnections := h.userConnections.insert s.ajaibID
                        ((h.userConnections.lookup s.ajaibID).getD 0 + 1),
                      clients := insert c h.clients } p =
                    liveCount h p + 1 := by
                  unfold liveCount
                  dsimp only
                  rw [Finset.filter_insert, if_pos ((hpredc p).mpr hpaj.symm),
                    Finset.card_insert_of_not_mem
                      (fun hmem9 => hnotmem (Finset.mem_filter.mp hmem9).1)]
                rw [hcnt, hlive]
                have hbase := (ihinv p).1 hMpos hp
                unfold countOf at hbase
                rw [← hpaj]
                push_cast
                omega
              · have hcnt : countOf
                    { h with
                      userConnections := h.userConnections.insert s.ajaibID
                        ((h.userConnections.lookup s.ajaibID).getD 0 + 1),
                      clients := insert c h.clients } p = countOf h p := by
                  unfold countOf
                  dsimp only
                  rw [Finmap.lookup_insert_of_ne _ hpaj]
                have hlive : liveCount
                    { h with
                      userConnections := h.userConnections.insert s.ajaibID
                        ((h.userConnections.lookup s.ajaibID).getD 0 + 1),
                      clients := insert c h.clients } p = liveCount h p := by
                  unfold liveCount
                  dsimp only
                  rw [Finset.filter_insert,
                    if_neg (fun hpc => hpaj ((hpredc p).mp hpc).symm)]
                rw [hcnt, hlive]
                exact (ihinv p).1 hMpos hp
            · intro hM0
              exact absurd hcond.2 (not_lt.mpr hM0)
          · intro x hx
            dsimp only at hx
            rcases Finset.mem_insert.mp hx with he | hx9
            · subst he
              exact ⟨s, hl⟩
            · exact ihown x hx9
      · have heq : h.registerClient c =
            { h with clients := insert c h.clients } := by
          simp only [Hub.registerClient, hl]
          rw [if_neg hcond]
        rw [heq]
        constructor
        · intro p
          constructor
          · intro hMpos hp
            have haj : s.ajaibID = [] := by
              by_contra haj9
              exact hcond ⟨haj9, hMpos⟩
            have hcnt : countOf { h with clients := insert c h.clients } p =
                countOf h p := rfl
            have hnegc : ¬ ((h.sessions.lookup c).map Session.ajaibID = some p) := by
              rw [hl]
              simp only [Option.map_some']
              rw [haj]
              intro hsome
              exact hp (Option.some.inj hsome).symm
            have hlive : liveCount { h with clients := insert c h.clients } p =
                liveCount h p := by
              unfold liveCount
              dsimp only
              rw [Finset.filter_insert, if_neg hnegc]
            rw [hcnt, hlive]
            exact (ihinv p).1 hMpos hp
          · intro hM0
            exact (ihinv p).2 hM0
        · intro x hx
          dsimp only at hx
          rcases Finset.mem_insert.mp hx with he | hx9
          · subst he
            exact ⟨s, hl⟩
          · exact ihown x hx9
  | unreg h c hprev hmem ih =>
    obtain ⟨ihinv, ihown⟩ := ih
    obtain ⟨s, hl⟩ := ihown c hmem
    obtain ⟨hcl, hch, hse⟩ := unregisterClient_fields h c s hl
    have huc9 : (h.unregisterClient c).userConnections =
        (if s.ajaibID ≠ [] then
          match h.userConnections.lookup s.ajaibID with
          | none => h.userConnections
          | some cur =>
            let newCur := if 0 < cur then cur - 1 else cur
            let m1 := if 0 < cur then
                h.userConnections.insert s.ajaibID newCur
              else h.userConnections
            if newCur = 0 then m1.erase s.ajaibID else m1
        else h.userConnections) := by
      simp only [Hub.unregisterClient, hl]
    have hM9 : (h.unregisterClient c).maxConnectionsPerUser =
        h.maxConnectionsPerUser := by
      simp only [Hub.unregisterClient, hl]
    have hsess : ∀ x, (h.unregisterClient c).sessions.lookup x =
        if x = c then some { s with closeCount := s.closeCount + 1 }
        else h.sessions.lookup x := by
      intro x
      rw [hse]
      by_cases he : x = c
      · subst he
        rw [if_pos rfl]
        exact Finmap.lookup_insert _
      · rw [if_neg he]
        exact Finmap.lookup_insert_of_ne _ he
    have hlive : ∀ p, (liveCount (h.unregisterClient c) p : ℤ) =
        liveCount h p -
          (if s.ajaibID = p then 1 else 0) := by
      intro p
      have hfe : liveCount (h.unregisterClient c) p =
          ((h.clients.filter
            (fun x => (h.sessions.lookup x).map Session.ajaibID = some p)).erase
              c).card := by
        unfold liveCount
        rw [hcl]
        have hcong : Finset.filter
            (fun x => ((h.unregisterClient c).sessions.lookup x).map
              Session.ajaibID = some p) (h.clients.erase c) =
            Finset.filter
            (fun x => (h.sessions.lookup x).map Session.ajaibID = some p)
            (h.clients.erase c) := by
          apply Finset.filter_congr
          intro x hx
          rw [hsess x, if_neg (Finset.mem_erase.mp hx).1]
        rw [hcong, Finset.filter_erase]
      rw [hfe]
      by_cases hpaj : s.ajaibID = p
      · have hcf : c ∈ h.clients.filter
            (fun x => (h.sessions.lookup x).map Session.ajaibID = some p) := by
          refine Finset.mem_filter.mpr ⟨hmem, ?_⟩
          rw [hl]
          simp only [Option.map_some']
          rw [hpaj]
        rw [if_pos hpaj, Finset.card_erase_of_mem hcf]
        have hpos : 0 < (h.clients.filter
            (fun x => (h.sessions.lookup x).map Session.ajaibID = some p)).card :=
          Finset.card_pos.mpr ⟨c, hcf⟩
        unfold liveCount
        omega
      · have hcf : c ∉ h.clients.filter
            (fun x => (h.sessions.lookup x).map Session.ajaibID = some p) := by
          intro hmem9
          have hthis := (Finset.mem_filter.mp hmem9).2
          rw [hl] at hthis
          simp only [Option.map_some'] at hthis
          exact hpaj (Option.some.inj hthis)
        rw [if_neg hpaj, Finset.erase_eq_of_not_mem hcf]
        unfold liveCount
        omega
    constructor
    · intro p
      constructor
      · intro hMpos hp
        rw [hM9] at hMpos
        by_cases haj : s.ajaibID ≠ []
        · rcases hcur : h.userConnections.lookup s.ajaibID with _ | cur
          · -- impossible: the count for a live session's user cannot be absent
            have hbase := (ihinv s.ajaibID).1 hMpos haj
            unfold countOf at hbase
            rw [hcur] at hbase
            have hposL : 0 < liveCount h s.ajaibID := by
              refine Finset.card_pos.mpr ⟨c, Finset.mem_filter.mpr ⟨hmem, ?_⟩⟩
              rw [hl]
              rfl
            simp only [Option.getD_none] at hbase
            exfalso
            unfold liveCount at hposL hbase
            omega
          · have hbase := (ihinv s.ajaibID).1 hMpos haj
            unfold countOf at hbase
            rw [hcur] at hbase
            simp only [Option.getD_some] at hbase
            have hposL : 0 < liveCount h s.ajaibID := by
              refine Finset.card_pos.mpr ⟨c, Finset.mem_filter.mpr ⟨hmem, ?_⟩⟩
              rw [hl]
              rfl
            have hcurpos : 0 < cur := by omega
            have hucform : (h.unregisterClient c).userConnections =
                if cur - 1 = 0 then
                  (h.userConnections.insert s.ajaibID (cur - 1)).erase s.ajaibID
                else h.userConnections.insert s.ajaibID (cur - 1) := by
              rw [huc9, if_pos haj, hcur]
              dsimp only
              rw [if_pos hcurpos, if_pos hcurpos]
            unfold countOf
            rw [hucform, hlive p]
            by_cases hpaj : p = s.ajaibID
            · subst hpaj
              by_cases hz : cur - 1 = 0
              · rw [if_pos hz, Finmap.lookup_erase]
                rw [if_pos rfl]
                simp only [Option.getD_none]
                omega
              · rw [if_neg hz, Finmap.lookup_insert]
                rw [if_pos rfl]
                simp only [Option.getD_some]
                omega
            · have hne : p ≠ s.ajaibID := hpaj
              have hlook : (if cur - 1 = 0 then
                  (h.userConnections.insert s.ajaibID (cur - 1)).erase s.ajaibID
                else h.userConnections.insert s.ajaibID (cur - 1)).lookup p =
                  h.userConnections.lookup p := by
                by_cases hz : cur - 1 = 0
                · rw [if_pos hz, Finmap.lookup_erase_ne hne,
                    Finmap.lookup_insert_of_ne _ hne]
                · rw [if_neg hz, Finmap.lookup_insert_of_ne _ hne]
              rw [hlook]
              rw [if_neg (fun he => hne he.symm)]
              have hbase2 := (ihinv p).1 hMpos hp
              unfold countOf at hbase2
              omega
        · have hucform : (h.unregisterClient c).userConnections =
              h.userConnections := by
            rw [huc9, if_neg haj]
          have haje : s.ajaibID = [] := not_not.mp haj
          unfold countOf
          rw [hucform, hlive p]
          rw [if_neg (fun he => hp (haje ▸ he).symm)]
          have hbase2 := (ihinv p).1 hMpos hp
          unfold countOf at hbase2
          omega
      · intro hM0
        rw [hM9] at hM0
        by_cases haj : s.ajaibID ≠ []
        · rcases hcur : h.userConnections.lookup s.ajaibID with _ | cur
          · rw [huc9, if_pos haj, hcur]
            exact (ihinv p).2 hM0
          · have := (ihinv s.ajaibID).2 hM0
            rw [hcur] at this
            exact Option.noConfusion this
        · rw [huc9, if_neg haj]
          exact (ihinv p).2 hM0
    · intro x hx
      rw [hcl] at hx
      obtain ⟨he, hx9⟩ := Finset.mem_erase.mp hx
      obtain ⟨s9, hs9⟩ := ihown x hx9
      rw [hsess x, if_neg he]
      exact ⟨s9, hs9⟩

/-- C4 (amended): after any reachable sequence of Hub operations, for every
non-empty public identifier `p`: when a positive per-user limit is
configured, `connections_per_user[p]` equals the number of live sessions
whose public identifier is `p`; when `max_connections_per_user ≤ 0` (no
limit), the count map is never populated at all. -/
theorem hub_connection_count_invariant {h : Hub} (hr : Reached h) :
    HubCountInv h :=
  (reached_inv hr).1

/-- A one-session heap with user `1`, used for the C4 counterexample: the
hub is configured with `max_connections_per_user = 0`. -/
def hubNoLimit : Hub :=
  { clients := ∅,
    userConnections := ∅,
    channels := ∅,
    sessions := (∅ : Finmap (fun _ : ℕ => Session)).insert 0
      ⟨"1".data, "C1".data, ∅, [], 256, 0⟩,
    maxConnectionsPerUser := 0 }

/-- C4 counterexample: with `max_connections_per_user = 0`, registering a
session of user `1` leaves `connections_per_user["1"]` at 0 while one live
session of user `1` exists — the claimed invariant fails for the
configured value 0. -/
theorem connection_count_fails_at_zero_limit :
    liveCount (hubNoLimit.registerClient 0) "1".data = 1 ∧
    countOf (hubNoLimit.registerClient 0) "1".data = 0 ∧
    (hubNoLimit.registerClient 0).userConnections.lookup "1".data = none := by
  decide

/-- The hub after creating one session of user `1` on a fresh hub with
limit 5; used by the C4 witness. -/
def hubW0 : Hub :=
  { clients := ∅,
    userConnections := ∅,
    channels := ∅,
    sessions := (∅ : Finmap (fun _ : ℕ => Session)).insert 0
      ⟨"1".data, "C1".data, ∅, [], 256, 0⟩,
    maxConnectionsPerUser := 5 }

/-- C4 witness: the amended invariant holds at a concrete reachable hub
(create one session of user `1`, then register it, with limit 5). -/
theorem hub_connection_count_invariant_witness :
    HubCountInv (hubW0.registerClient 0) :=
  hub_connection_count_invariant
    (Reached.reg hubW0 0
      (Reached.create ⟨∅, ∅, ∅, ∅, 5⟩ 0 "1".data "C1".data 256
        (Reached.start 5) (by decide))
      (by decide))

/-! ## Protocol handler and subscription tracker
(`internal/websocket/handler/handler.go` and the kafka `Broadcaster` of
`part_003`). The tracker is the Broadcaster's `activeUsers` map
(`cfx_user_id → ajaib_id`). Replies are abstracted to their kind and error
code. -/

def codeBadRequest : ℤ := 4000

def codeChannelNotFound : ℤ := 4001

def codeAlreadySubscribed : ℤ := 4002

def codeNotSubscribed : ℤ := 4003

def codeInternalError : ℤ := 4500

instance instDecEqExcept {e a : Type} [DecidableEq e] [DecidableEq a] :
    DecidableEq (Except e a)
  | .error e1, .error e2 =>
    if h : e1 = e2 then isTrue (by rw [h])
    else isFalse (fun hc => h (Except.error.inj hc))
  | .error _, .ok _ => isFalse (fun hc => Except.noConfusion hc)
  | .ok _, .error _ => isFalse (fun hc => Except.noConfusion hc)
  | .ok a1, .ok a2 =>
    if h : a1 = a2 then isTrue (by rw [h])
    else isFalse (fun hc => h (Except.ok.inj hc))

/-- A handler reply, reduced to what the claims inspect. -/
inductive Reply
  | errorReply (code : ℤ)
  | subscribedReply (ch : Str)
  | unsubscribedReply (ch : Str)
deriving DecidableEq, Repr

/-- Modelled from the spec: `Hub.IsClientSubscribed` is called by the handler
but its body is not among the source files; §4.2 rejects a `subscribe` with
`already-subscribed` "if already in the Session's subscription set", so it is
membership of the channel in the session's subscription set. -/
def Hub.isClientSubscribed (h : Hub) (c : ℕ) (ch : Str) : Bool :=
  match h.sessions.lookup c with
  | none => false
  | some s => decide (ch ∈ s.subs)

/-- The WebSocket server plus the Broadcaster's subscription index. -/
structure Gateway where
  hub : Hub
  tracker : Finmap (fun _ : Str => Str)
deriving DecidableEq

/-- The error-code mapping of `handleSubscribe`: format and cfx-user-id
errors become `channel not found`; the default (including unknown channel
type) stays `bad request`. -/
def subscribeErrCode : ChanErr → ℤ
  | .invalidChannelFormat => codeChannelNotFound
  | .invalidCFXUserID => codeChannelNotFound
  | .unknownChannelType => codeBadRequest

/-- `DefaultHandler.handleSubscribe`: empty channel → 4000; duplicate → 4002;
parse failure → mapped code; non-empty session id differing from the
channel's embedded id → 4001; otherwise register with the tracker (only when
the resolved internal id is non-empty) and subscribe with the Hub. The
`none` session arm is unreachable (a Go `*Client` always exists). -/
def handleSubscribe (g : Gateway) (c : ℕ) (ch : Str) : Gateway × Reply :=
  if ch = [] then (g, .errorReply codeBadRequest)
  else if g.hub.isClientSubscribed c ch = true then
    (g, .errorReply codeAlreadySubscribed)
  else
    match parseChannel ch with
    | .error e => (g, .errorReply (subscribeErrCode e))
    | .ok info =>
      match g.hub.sessions.lookup c with
      | none => (g, .errorReply codeInternalError)
      | some s =>
        if s.ajaibID ≠ [] ∧ s.ajaibID ≠ info.ajaibID then
          (g, .errorReply codeChannelNotFound)
        else
          let tr := if s.cfxUserID ≠ [] then
              g.tracker.insert s.cfxUserID s.ajaibID
            else g.tracker
          (⟨g.hub.subscribeClient c ch, tr⟩, .subscribedReply ch)

/-- `DefaultHandler.handleUnsubscribe`: empty channel → 4000; not subscribed
→ 4003; otherwise unsubscribe with the Hub and unconditionally delete the
tracker entry for the session's internal id (when non-empty). -/
def handleUnsubscribe (g : Gateway) (c : ℕ) (ch : Str) : Gateway × Reply :=
  if ch = [] then (g, .errorReply codeBadRequest)
  else if g.hub.isClientSubscribed c ch = false then
    (g, .errorReply codeNotSubscribed)
  else
    match g.hub.sessions.lookup c with
    | none => (g, .errorReply codeInternalError)
    | some s =>
      let tr := if s.cfxUserID ≠ [] then g.tracker.erase s.cfxUserID
        else g.tracker
      (⟨g.hub.unsubscribeClient c ch, tr⟩, .unsubscribedReply ch)

/-- C5 (amended): with the session not already subscribed, a `subscribe`
whose channel fails to parse is rejected with 4001 when the failure is
invalid format or invalid public id, and with 4000 when the name lacks the
`user:` head or has an unknown suffix (the empty name also gets 4000); a
parse-valid channel whose embedded id differs from the session's non-empty
public id is rejected with 4001. In every rejection the Hub and tracker are
unchanged. -/
theorem handleSubscribe_rejects (g : Gateway) (c : ℕ) (ch : Str) (s : Session)
    (hs : g.hub.sessions.lookup c = some s)
    (hsub : g.hub.isClientSubscribed c ch = false) :
    (∀ e, parseChannel ch = .error e →
      handleSubscribe g c ch = (g, .errorReply (subscribeErrCode e))) ∧
    (∀ info, parseChannel ch = .ok info → s.ajaibID ≠ [] →
      s.ajaibID ≠ info.ajaibID →
      handleSubscribe g c ch = (g, .errorReply codeChannelNotFound)) := by
  by_cases hch : ch = []
  · subst hch
    constructor
    · intro e he
      have he9 : e = ChanErr.unknownChannelType := by
        have : parseChannel [] = .error .unknownChannelType := rfl
        rw [this] at he
        exact (Except.error.inj he).symm
      subst he9
      rfl
    · intro info hinfo
      exact absurd hinfo (by intro h9; exact Except.noConfusion h9)
  · constructor
    · intro e he
      simp [handleSubscribe, hch, hsub, he]
    · intro info hinfo hne1 hne2
      simp [handleSubscribe, hch, hsub, hinfo, hs, hne1, hne2]

/-- A gateway around the single-session hub, with an empty tracker. -/
def gwOne : Gateway := { hub := hubSolo, tracker := ∅ }

/-- C5 counterexample: the malformed channel `user:111:bogus` (unknown
suffix) from the session whose public id is `111` is rejected with code
4000 (bad request), not 4001 (channel not found) as the claim requires. -/
theorem handleSubscribe_malformed_gets_4000 :
    handleSubscribe gwOne 0 "user:111:bogus".data =
      (gwOne, .errorReply codeBadRequest) ∧
    codeBadRequest ≠ codeChannelNotFound := by
  decide

/-- C5 witness: `user::margin` (empty embedded id → invalid format) is
rejected with the mapped code 4001. -/
theorem handleSubscribe_rejects_witness :
    handleSubscribe gwOne 0 "user::margin".data =
      (gwOne, .errorReply (subscribeErrCode .invalidChannelFormat)) :=
  (handleSubscribe_rejects gwOne 0 "user::margin".data sessA (by decide)
    (by decide)).1 .invalidChannelFormat (by decide)

/-- The two-session gateway for the C2 scenario. -/
def gwPair : Gateway := { hub := hubPair, tracker := ∅ }

/-- Both sessions of user `111` subscribed to `user:111:margin` through the
handler. -/
def gwSub2 : Gateway :=
  (handleSubscribe (handleSubscribe gwPair 0 "user:111:margin".data).1 1
    "user:111:margin".data).1

/-- The gateway after session 0 then unsubscribes. -/
def gwAfterUnsub : Gateway :=
  (handleUnsubscribe gwSub2 0 "user:111:margin".data).1

/-- C2: the tracker entry for internal id `C1` exists while both sessions
are subscribed, but the first unsubscribe deletes it even though session 1
is still subscribed to a user channel — the reference-counted behaviour the
spec mandates does not hold in the code (`UnregisterSubscription`
unconditionally deletes the mapping). -/
theorem tracker_entry_dropped_while_still_subscribed :
    gwSub2.tracker.lookup "C1".data = some "111".data ∧
    gwAfterUnsub.tracker.lookup "C1".data = none ∧
    gwAfterUnsub.hub.isClientSubscribed 1 "user:111:margin".data = true := by
  decide

/-! ## Server construction (claim C6)
`server.NewServer` (`internal/websocket/server/server.go`) and
`initWebSocketServer` (`main.go`): construction never fails and performs no
liveness-timer validation. -/

/-- The `websocket_server` configuration section (fields the constructor
reads). -/
structure WSConfig where
  pingIntervalMs : ℤ
  pingTimeoutMs : ℤ
  maxConnectionsPerUser : ℤ
  readBufferSize : ℤ
  writeBufferSize : ℤ
  port : ℤ
deriving DecidableEq, Repr

/-- `ClientConfig` as built by `NewServer` (durations in milliseconds). -/
structure ClientCfg where
  pingIntervalMs : ℤ
  pingTimeoutMs : ℤ
  writeWaitMs : ℤ
  readLimit : ℤ
  sendBuffer : ℕ
deriving DecidableEq, Repr

/-- The server state `NewServer` returns. -/
structure ServerModel where
  clientConfig : ClientCfg
  maxConnectionsPerUser : ℤ
  readBufferSize : ℤ
  writeBufferSize : ℤ
  port : ℤ
deriving DecidableEq, Repr

/-- `NewServer`: copies the ping timers into the client config unchecked,
defaults the buffer sizes, and always returns a server. -/
def newServer (cfg : WSConfig) : ServerModel :=
  { clientConfig :=
      { pingIntervalMs := cfg.pingIntervalMs,
        pingTimeoutMs := cfg.pingTimeoutMs,
        writeWaitMs := 10000,
        readLimit := 512 * 1024,
        sendBuffer := 256 },
    maxConnectionsPerUser := cfg.maxConnectionsPerUser,
    readBufferSize := if cfg.readBufferSize = 0 then 1024 else cfg.readBufferSize,
    writeBufferSize := if cfg.writeBufferSize = 0 then 1024 else cfg.writeBufferSize,
    port := cfg.port }

/-- `initWebSocketServer` of `main.go`: wires the server and handler and
returns a nil error unconditionally, so `main` never takes its exit path. -/
def initWebSocketServer (cfg : WSConfig) : Except Unit ServerModel :=
  .ok (newServer cfg)

/-- A configuration with `ping_interval_ms = 30000 ≥ ping_timeout_ms = 2000`. -/
def badLivenessConfig : WSConfig :=
  { pingIntervalMs := 30000,
    pingTimeoutMs := 2000,
    maxConnectionsPerUser := 5,
    readBufferSize := 0,
    writeBufferSize := 0,
    port := 8080 }

/-- C6: with `ping_interval ≥ pong_timeout` the initialization still
succeeds (returns the server, no error), and the server's session timers
carry exactly the inverted values — the program does not refuse to start,
contradicting the spec's mandate. -/
theorem startup_accepts_inverted_liveness_timers :
    initWebSocketServer badLivenessConfig = .ok (newServer badLivenessConfig) ∧
    (newServer badLivenessConfig).clientConfig.pingTimeoutMs ≤
      (newServer badLivenessConfig).clientConfig.pingIntervalMs := by
  decide

/-! ## Transformer (claim C8)
`Transformer.TransformUserMargin` of `internal/service/transformer.go`.
The record is the decoded `types.UserMargin`; `float64` amounts are `ℚ`
(only which fields are multiplied matters); the JSON unmarshal/marshal pair
around the rewrite is abstracted away. The exchange-rate fetch is passed in
as its result. -/

/-- `types.UserMargin` with monetary amounts as `ℚ`. The source field
`margin_ratio` is named `marginRatioVal` here. -/
structure UserMargin where
  timestamp : ℤ
  cfxUserID : Str
  asset : Str
  totalPositionValue : ℚ
  marginBalance : ℚ
  orderMargin : ℚ
  effectiveLeverage : ℚ
  maintenanceMargin : ℚ
  unrealizedPnl : ℚ
  availableMargin : ℚ
  walletBalance : ℚ
  marginRatioVal : ℚ
  withdrawableMargin : ℚ
deriving DecidableEq, Repr

/-- `TransformUserMargin`: returns the input unchanged unless
`asset == "IDR"`; otherwise propagates a rate-fetch error, or multiplies the
eight monetary fields by the rate. -/
def transformUserMargin (m : UserMargin) (rate : Except Unit ℚ) :
    Except Unit UserMargin :=
  if m.asset ≠ "IDR".data then .ok m
  else
    match rate with
    | .error e => .error e
    | .ok r => .ok
      { m with
        totalPositionValue := m.totalPositionValue * r,
        marginBalance := m.marginBalance * r,
        orderMargin := m.orderMargin * r,
        maintenanceMargin := m.maintenanceMargin * r,
        unrealizedPnl := m.unrealizedPnl * r,
        availableMargin := m.availableMargin * r,
        walletBalance := m.walletBalance * r,
        withdrawableMargin := m.withdrawableMargin * r }

/-- C8: for a decoded margin payload, a non-`"IDR"` asset returns the input
unchanged (whatever the rate fetch did); with asset `"IDR"` and an available
rate, exactly the eight monetary fields are multiplied by the rate and every
other field (`timestamp`, ids, `asset`, `effective_leverage`,
`margin_ratio`) is unchanged; a failed rate fetch propagates the error. -/
theorem transformUserMargin_correct (m : UserMargin) :
    (m.asset ≠ "IDR".data → ∀ rate, transformUserMargin m rate = .ok m) ∧
    (m.asset = "IDR".data → ∀ r : ℚ, transformUserMargin m (.ok r) = .ok
      { timestamp := m.timestamp,
        cfxUserID := m.cfxUserID,
        asset := m.asset,
        totalPositionValue := m.totalPositionValue * r,
        marginBalance := m.marginBalance * r,
        orderMargin := m.orderMargin * r,
        effectiveLeverage := m.effectiveLeverage,
        maintenanceMargin := m.maintenanceMargin * r,
        unrealizedPnl := m.unrealizedPnl * r,
        availableMargin := m.availableMargin * r,
        walletBalance := m.walletBalance * r,
        marginRatioVal := m.marginRatioVal,
        withdrawableMargin := m.withdrawableMargin * r }) ∧
    (m.asset = "IDR".data → ∀ e, transformUserMargin m (.error e) = .error e) := by
  refine ⟨?_, ?_, ?_⟩
  · intro hne rate
    unfold transformUserMargin
    rw [if_pos hne]
  · intro heq r
    unfold transformUserMargin
    rw [if_neg (not_not.mpr heq)]
  · intro heq e
    unfold transformUserMargin
    rw [if_neg (not_not.mpr heq)]

/-- A sample decoded margin payload with asset `"IDR"`. -/
def mSample : UserMargin :=
  { timestamp := 1,
    cfxUserID := "C1".data,
    asset := "IDR".data,
    totalPositionValue := 2,
    marginBalance := 3,
    orderMargin := 5,
    effectiveLeverage := 7,
    maintenanceMargin := 11,
    unrealizedPnl := 13,
    availableMargin := 17,
    walletBalance := 19,
    marginRatioVal := 23,
    withdrawableMargin := 29 }

/-- C8 witness: the IDR sample at rate 15000. -/
theorem transformUserMargin_correct_witness :
    transformUserMargin mSample (.ok 15000) = .ok
      { timestamp := mSample.timestamp,
        cfxUserID := mSample.cfxUserID,
        asset := mSample.asset,
        totalPositionValue := mSample.totalPositionValue * 15000,
        marginBalance := mSample.marginBalance * 15000,
        orderMargin := mSample.orderMargin * 15000,
        effectiveLeverage := mSample.effectiveLeverage,
        maintenanceMargin := mSample.maintenanceMargin * 15000,
        unrealizedPnl := mSample.unrealizedPnl * 15000,
        availableMargin := mSample.availableMargin * 15000,
        walletBalance := mSample.walletBalance * 15000,
        marginRatioVal := mSample.marginRatioVal,
        withdrawableMargin := mSample.withdrawableMargin * 15000 } :=
  (transformUserMargin_correct mSample).2.1 rfl 15000

/-! ## Rate provider and cache (claim C10)
`HTTPRateProvider.GetUSDTToIDRRate` and `cachedCurrencyService` /
`rateCache` of `internal/service/currency.go`. HTTP transport and JSON
decoding are abstracted to the decoded `amount` (`none` = request/decode
failure); wall-clock instants are naturals; `float64` comparisons are `ℚ`. -/

/-- `GetUSDTToIDRRate`: transport/decoding failure or a non-positive decoded
amount is an error; otherwise the amount is returned. -/
def getUSDTToIDRRate (resp : Option ℚ) : Except Unit ℚ :=
  match resp with
  | none => .error ()
  | some amount => if amount ≤ 0 then .error () else .ok amount

/-- The `rateCache` slot; `rate = 0` encodes the empty state (Go zero
value). -/
structure RateCache where
  rate : ℚ
  timestamp : ℕ
  ttl : ℕ
deriving DecidableEq, Repr

/-- `newRateCache`: zero-valued slot with the configured TTL. -/
def newRateCache (ttl : ℕ) : RateCache := ⟨0, 0, ttl⟩

/-- `rateCache.isExpired`: empty or older than the TTL. -/
def RateCache.isExpired (c : RateCache) (now : ℕ) : Bool :=
  decide (c.rate = 0) || decide (c.ttl < now - c.timestamp)

/-- `rateCache.get`: errors on the empty slot or past the TTL. -/
def RateCache.get (c : RateCache) (now : ℕ) : Except Unit ℚ :=
  if c.rate = 0 then .error ()
  else if c.ttl < now - c.timestamp then .error ()
  else .ok c.rate

/-- `rateCache.set`. -/
def RateCache.set (c : RateCache) (rate : ℚ) (now : ℕ) : RateCache :=
  { c with rate := rate, timestamp := now }

/-- The tail of `GetCurrentRate`: fetch from the provider; on failure leave
the cache as is and report the error; on success store and return. -/
def fetchStore (c : RateCache) (now : ℕ) (resp : Option ℚ) :
    RateCache × Except Unit ℚ :=
  match getUSDTToIDRRate resp with
  | .error e => (c, .error e)
  | .ok r => (c.set r now, .ok r)

/-- The critical section of `GetCurrentRate` (under the write lock): the
double-checked re-read, then the fetch. Sequentially the re-check repeats
the same pure test. -/
def getCurrentRateLocked (c : RateCache) (now : ℕ) (resp : Option ℚ) :
    RateCache × Except Unit ℚ :=
  if c.isExpired now = false then
    match c.get now with
    | .ok r => (c, .ok r)
    | .error _ => fetchStore c now resp
  else fetchStore c now resp

/-- `cachedCurrencyService.GetCurrentRate`: fast path under the read lock,
then the locked section. -/
def getCurrentRate (c : RateCache) (now : ℕ) (resp : Option ℚ) :
    RateCache × Except Unit ℚ :=
  if c.isExpired now = false then
    match c.get now with
    | .ok r => (c, .ok r)
    | .error _ => getCurrentRateLocked c now resp
  else getCurrentRateLocked c now resp

/-- The cache never holds a non-positive rate other than the empty marker 0. -/
def CacheOK (c : RateCache) : Prop := c.rate = 0 ∨ 0 < c.rate

theorem getRate_pos (resp : Option ℚ) (r : ℚ)
    (h : getUSDTToIDRRate resp = .ok r) : 0 < r := by
  rcases resp with _ | amount
  · exact absurd h (by intro h9; exact Except.noConfusion h9)
  · simp only [getUSDTToIDRRate] at h
    by_cases hle : amount ≤ 0
    · rw [if_pos hle] at h
      exact absurd h (by intro h9; exact Except.noConfusion h9)
    · rw [if_neg hle] at h
      have : amount = r := Except.ok.inj h
      subst this
      exact lt_of_not_le hle

theorem cacheGet_pos (c : RateCache) (now : ℕ) (r : ℚ) (hok : CacheOK c)
    (h : c.get now = .ok r) : 0 < r := by
  unfold RateCache.get at h
  by_cases h0 : c.rate = 0
  · rw [if_pos h0] at h
    exact absurd h (by intro h9; exact Except.noConfusion h9)
  · rw [if_neg h0] at h
    by_cases hexp : c.ttl < now - c.timestamp
    · rw [if_pos hexp] at h
      exact absurd h (by intro h9; exact Except.noConfusion h9)
    · rw [if_neg hexp] at h
      have : c.rate = r := Except.ok.inj h
      subst this
      rcases hok with h1 | h1
      · exact absurd h1 h0
      · exact h1

theorem fetchStore_spec (c : RateCache) (now : ℕ) (resp : Option ℚ)
    (hok : CacheOK c) :
    CacheOK (fetchStore c now resp).1 ∧
    ∀ r, (fetchStore c now resp).2 = .ok r → 0 < r := by
  unfold fetchStore
  rcases hresp : getUSDTToIDRRate resp with e | rv
  · exact ⟨hok, fun r h => absurd h (by intro h9; exact Except.noConfusion h9)⟩
  · have hrv : 0 < rv := getRate_pos resp rv hresp
    refine ⟨Or.inr hrv, ?_⟩
    intro r h
    have : rv = r := Except.ok.inj h
    subst this
    exact hrv

theorem getCurrentRateLocked_spec (c : RateCache) (now : ℕ) (resp : Option ℚ)
    (hok : CacheOK c) :
    CacheOK (getCurrentRateLocked c now resp).1 ∧
    ∀ r, (getCurrentRateLocked c now resp).2 = .ok r → 0 < r := by
  unfold getCurrentRateLocked
  by_cases hexp : c.isExpired now = false
  · rw [if_pos hexp]
    rcases hget : c.get now with e | rv
    · exact fetchStore_spec c now resp hok
    · refine ⟨hok, ?_⟩
      intro r h
      have hrr : rv = r := Except.ok.inj h
      subst hrr
      exact cacheGet_pos c now rv hok hget
  · rw [if_neg hexp]
    exact fetchStore_spec c now resp hok

/-- C10: the provider only ever returns positive rates; the fresh cache is
in the empty state; and `GetCurrentRate`, from any cache satisfying the
invariant (rate 0 = empty, otherwise positive), preserves the invariant and
never returns a non-positive rate with a nil error — so the 0 empty-marker
never collides with a stored rate. -/
theorem rate_cache_positive :
    (∀ resp r, getUSDTToIDRRate resp = .ok r → 0 < r) ∧
    (∀ ttl, CacheOK (newRateCache ttl)) ∧
    (∀ c now resp, CacheOK c →
      CacheOK (getCurrentRate c now resp).1 ∧
      ∀ r, (getCurrentRate c now resp).2 = .ok r → 0 < r) := by
  refine ⟨getRate_pos, fun ttl => Or.inl rfl, ?_⟩
  intro c now resp hok
  unfold getCurrentRate
  by_cases hexp : c.isExpired now = false
  · rw [if_pos hexp]
    rcases hget : c.get now with e | rv
    · exact getCurrentRateLocked_spec c now resp hok
    · refine ⟨hok, ?_⟩
      intro r h
      have hrr : rv = r := Except.ok.inj h
      subst hrr
      exact cacheGet_pos c now rv hok hget
  · rw [if_neg hexp]
    exact getCurrentRateLocked_spec c now resp hok

/-- C10 witness: a first fetch on the fresh cache at rate 15000. -/
theorem rate_cache_positive_witness :
    CacheOK (getCurrentRate (newRateCache 60) 0 (some 15000)).1 ∧
    (∀ r, (getCurrentRate (newRateCache 60) 0 (some 15000)).2 = .ok r →
      0 < r) :=
  rate_cache_positive.2.2 (newRateCache 60) 0 (some 15000) (Or.inl rfl)

end CFWS
